import Mathlib

/-!
A verification development of the live-synchronization layer of the
ALPR-Barrier-Control dashboard client.

The definitions below are shallow embeddings of the TypeScript source:

* `recentEventsApply` — the WebSocket subscriber of
  `frontend/src/components/dashboard/RecentEvents.tsx`, whose state update is
  `setEvents((prevEvents) => [message.data, ...prevEvents.slice(0, 5)])`.
* `handleSessionUpdate` — the `session_update` handler of
  `frontend/src/pages/Sessions.tsx`:
  it looks up `prev.findIndex(s => s.id === session.id)`, replaces in place on a
  hit, and otherwise returns `[session, ...prev.slice(0, pageSize - 1)]`.
* `WebSocketService` state and its `connect` / `subscribe` / `unsubscribe` /
  `onmessage` operations from `services/websocket.ts`.

Machine conventions: JS `Array.slice(0, k)` is `List.take k`; a JS `Set` is an
insertion-ordered list with unique keys; timestamps (ISO strings compared as a
domain ordering key in the spec) are modelled as integers; exceptions thrown by
a callback are modelled by a boolean behaviour flag, and `Set.forEach` under
exceptions aborts at the first throwing callback, the throw being caught by the
enclosing `try`/`catch` of `ws.onmessage`.
-/

/-- The event entity rendered by `RecentEvents.tsx` (`interface Event`). -/
inductive EventType
  | entry
  | exit
  | denied
deriving DecidableEq

structure Event where
  id : Nat
  eventType : EventType
  licensePlate : String
  timestamp : Int
  cameraLocation : String
  confidence : Option Int
deriving DecidableEq

/-- The message-type tag of `WebSocketMessage` in `services/websocket.ts`. -/
inductive MsgType
  | event
  | session
  | system
  | stats
deriving DecidableEq

/-- The state update of the `RecentEvents.tsx` subscriber:
`setEvents((prevEvents) => [message.data, ...prevEvents.slice(0, 5)])`. -/
def recentEventsApply (prevEvents : List Event) (e : Event) : List Event :=
  e :: prevEvents.take 5

/-- The subscriber callback of `RecentEvents.tsx`: the update runs only when
`message.type === 'event'`. -/
def recentEventsOnMessage (prevEvents : List Event) (t : MsgType) (e : Event) :
    List Event :=
  if t = MsgType.event then recentEventsApply prevEvents e else prevEvents

/-- The session entity of `Sessions.tsx` (`interface Session`). -/
inductive SessionStatus
  | active
  | completed
  | expired
deriving DecidableEq

structure VehicleDetails where
  ownerName : String
  vehicleType : String
  vehicleMake : Option String
  vehicleModel : Option String
deriving DecidableEq

structure Session where
  id : String
  vehicleId : String
  plateNumber : String
  entryTime : String
  exitTime : Option String
  durationMinutes : Option Int
  entryCameraId : String
  exitCameraId : Option String
  status : SessionStatus
  vehicleDetails : Option VehicleDetails
  entryConfidence : Int
  exitConfidence : Option Int
deriving DecidableEq

/-- `handleSessionUpdate` of `Sessions.tsx`: replace in place when
`prev.findIndex(s => s.id === session.id)` hits, otherwise
`[session, ...prev.slice(0, pageSize - 1)]`. -/
def handleSessionUpdate (pageSize : Nat) (prev : List Session) (s : Session) :
    List Session :=
  match prev.findIdx? (fun x => x.id == s.id) with
  | some i => prev.set i s
  | none => s :: prev.take (pageSize - 1)

/-- Identity list of a RecentEvents view. -/
def eventIds (l : List Event) : List Nat :=
  l.map Event.id

/-- Identity list of a Sessions view. -/
def sessionIds (l : List Session) : List String :=
  l.map Session.id

/-- The spec's ordering invariant on a RecentEvents view: the entry with the
more recent ordering key (event timestamp) precedes the other. -/
def sortedByKeyDesc (l : List Event) : Prop :=
  l.Pairwise (fun a b => b.timestamp ≤ a.timestamp)

instance : DecidablePred sortedByKeyDesc := fun l =>
  inferInstanceAs (Decidable (l.Pairwise _))

/-- The two kinds of steps that mutate the `RecentEvents.tsx` view state: a
push envelope delivered to the subscriber, and the completion of a REST
refetch, whose handler runs `setEvents(response.items || [])`, overwriting
whatever the subscriber wrote while the fetch was in flight. -/
inductive FeedStep
  | push (e : Event)
  | fetchComplete (snapshot : List Event)

def stepRecentEvents (evs : List Event) : FeedStep → List Event
  | FeedStep.push e => recentEventsApply evs e
  | FeedStep.fetchComplete snapshot => snapshot

/-- Concrete events used as inputs for the counterexamples and witnesses. -/
def evA : Event :=
  ⟨1, EventType.entry, "AAA-111", 10, "gate-1", some 90⟩

def evB : Event :=
  ⟨2, EventType.exit, "BBB-222", 5, "gate-2", none⟩

def evOf (n : Nat) (t : Int) : Event :=
  ⟨n, EventType.entry, "CCC-333", t, "gate-1", none⟩

/-- An update envelope carrying the identity of `evA` (same `id`, fresher
fields), as the backend sends when an entity already shown changes. -/
def evAupd : Event :=
  ⟨1, EventType.entry, "AAA-111", 11, "gate-1", some 95⟩

/-- A six-entry RecentEvents view whose positionally last entry has the most
recent ordering key, so the logically oldest entry sits at the front. -/
def prevSix : List Event :=
  [evOf 1 1, evOf 2 2, evOf 3 3, evOf 4 4, evOf 5 5, evOf 6 6]

/-- A concrete active session for witnesses. -/
def sessA : Session :=
  ⟨"s1", "v1", "AAA-111", "2025-01-01T10:00:00Z", none, none, "cam-1", none,
    SessionStatus.active, none, 95, none⟩

/-- Setting an index to the value it already holds leaves a list unchanged. -/
theorem listSetSame {α : Type _} :
    ∀ (l : List α) (i : Nat) (a : α), l[i]? = some a → l.set i a = l
  | [], i, a, h => by simp at h
  | x :: xs, 0, a, h => by
      simp only [List.getElem?_cons_zero, Option.some.injEq] at h
      simp [h]
  | x :: xs, i + 1, a, h => by
      simp only [List.getElem?_cons_succ] at h
      simp [listSetSame xs i a h]

/-- `findIdx?` returns an index whose element satisfies the predicate. -/
theorem findIdxSomePred {α : Type _} {p : α → Bool} :
    ∀ (l : List α) (i : Nat), l.findIdx? p = some i →
      ∃ a, l[i]? = some a ∧ p a = true
  | [], i, h => by simp at h
  | x :: xs, i, h => by
      rw [List.findIdx?_cons] at h
      by_cases hx : p x
      · rw [if_pos hx, Option.some.injEq] at h
        exact ⟨x, by simp [← h], hx⟩
      · rw [if_neg hx, List.findIdx?_succ] at h
        obtain ⟨j, hj, rfl⟩ := Option.map_eq_some'.mp h
        obtain ⟨a, ha, hpa⟩ := findIdxSomePred xs j hj
        exact ⟨a, by simpa using ha, hpa⟩

/-- Writing a predicate-satisfying value at the found index leaves the found
index unchanged. -/
theorem findIdxSetSelf {α : Type _} {p : α → Bool} {a : α} (hpa : p a = true) :
    ∀ (l : List α) (i : Nat), l.findIdx? p = some i →
      (l.set i a).findIdx? p = some i
  | [], i, h => by simp at h
  | x :: xs, i, h => by
      rw [List.findIdx?_cons] at h
      by_cases hx : p x
      · rw [if_pos hx, Option.some.injEq] at h
        subst h
        simp [List.findIdx?_cons, hpa]
      · rw [if_neg hx, List.findIdx?_succ] at h
        obtain ⟨j, hj, rfl⟩ := Option.map_eq_some'.mp h
        have := findIdxSetSelf hpa xs j hj
        simp [List.findIdx?_cons, hx, List.findIdx?_succ, this]

/-- The replace-in-place branch of `handleSessionUpdate` does not change the
identity list of the view. -/
theorem sessionIdsSetOfFound (prev : List Session) (s : Session) (i : Nat)
    (h : prev.findIdx? (fun x => x.id == s.id) = some i) :
    sessionIds (prev.set i s) = sessionIds prev := by
  obtain ⟨a, ha, hpa⟩ := findIdxSomePred prev i h
  have hid : a.id = s.id := by simpa using hpa
  have hmap : (sessionIds prev)[i]? = some s.id := by
    simp [sessionIds, List.getElem?_map, ha, hid]
  calc sessionIds (prev.set i s) = (sessionIds prev).set i s.id := by
        simp [sessionIds, List.map_set]
    _ = sessionIds prev := listSetSame _ i _ hmap

/-- One `handleSessionUpdate` step preserves uniqueness of session ids. -/
theorem nodupHandleSessionUpdate (ps : Nat) (prev : List Session) (s : Session)
    (h : (sessionIds prev).Nodup) :
    (sessionIds (handleSessionUpdate ps prev s)).Nodup := by
  unfold handleSessionUpdate
  cases hf : prev.findIdx? (fun x => x.id == s.id) with
  | some i =>
      rw [sessionIdsSetOfFound prev s i hf]
      exact h
  | none =>
      have hall : ∀ x ∈ prev, (x.id == s.id) = false :=
        List.findIdx?_eq_none_iff.mp hf
      have htake : sessionIds (prev.take (ps - 1)) =
          (sessionIds prev).take (ps - 1) := by
        simp [sessionIds]
      have hnods : ((sessionIds prev).take (ps - 1)).Nodup :=
        List.Nodup.sublist (List.take_sublist _ _) h
      have hnotmem : s.id ∉ sessionIds (prev.take (ps - 1)) := by
        intro hmem
        obtain ⟨x, hx, hxid⟩ := List.mem_map.mp hmem
        have hxp : x ∈ prev := List.mem_of_mem_take hx
        have := hall x hxp
        rw [beq_eq_false_iff_ne] at this
        exact this hxid
      show (sessionIds (s :: prev.take (ps - 1))).Nodup
      rw [show sessionIds (s :: prev.take (ps - 1)) =
            s.id :: sessionIds (prev.take (ps - 1)) from rfl]
      exact List.nodup_cons.mpr ⟨by rw [htake] at hnotmem ⊢; exact hnotmem, htake ▸ hnods⟩

/-- C1 counterexample: starting from the duplicate-free view `[evA]`, the
RecentEvents subscriber applies a push envelope carrying the identity of the
entry already present (`evAupd`, same `id` as `evA`) by plain prepend, and the
resulting view holds two entries with the same entity identity. -/
theorem c1_unique_identity_cx :
    (eventIds [evA]).Nodup ∧
    ¬ (eventIds (List.foldl recentEventsApply [evA] [evAupd])).Nodup := by
  constructor
  · decide
  · decide

/-- C1 as amended: the no-duplicate-identity invariant holds for the Sessions
feed, whose handler reconciles by `id` (replace in place on a hit, prepend
otherwise); for every snapshot with unique session ids and every sequence of
push envelopes, the reconciled list never contains two entries with the same
id. The RecentEvents feed does not enforce it (see the counterexample). -/
theorem c1_unique_identity_amended (ps : Nat) (snapshot envs : List Session)
    (h : (sessionIds snapshot).Nodup) :
    (sessionIds (List.foldl (handleSessionUpdate ps) snapshot envs)).Nodup := by
  induction envs generalizing snapshot with
  | nil => exact h
  | cons e es ih =>
      rw [List.foldl_cons]
      exact ih _ (nodupHandleSessionUpdate ps snapshot e h)

theorem c1_unique_identity_witness :
    (sessionIds [sessA]).Nodup ∧
    (sessionIds (List.foldl (handleSessionUpdate 20) [sessA] [sessA])).Nodup :=
  ⟨by decide, c1_unique_identity_amended 20 [sessA] [sessA] (by decide)⟩

/-- C2 counterexample: the view `[evA]` satisfies the spec's descending-key
ordering; delivering `evB`, whose ordering key (timestamp 5) is older than
`evA`'s (timestamp 10), prepends it at the head, so the entry with the more
recent key no longer precedes the other. -/
theorem c2_ordering_cx :
    sortedByKeyDesc [evA] ∧
    ¬ sortedByKeyDesc (List.foldl recentEventsApply [evA] [evB]) := by
  constructor
  · decide
  · decide

/-- Heads of a capped prepend: capping the tail before or after appending a
fixed prefix of at most six entries gives the same first six entries. -/
theorem takeSixAppendConsTake {α : Type _} (A : List α) (e : α) (l : List α) :
    (A ++ e :: l.take 5).take 6 = (A ++ e :: l).take 6 := by
  rw [List.take_append_eq_append_take, List.take_append_eq_append_take]
  congr 1
  rcases Nat.lt_or_ge A.length 6 with hA | hA
  · have hk : 6 - A.length = (5 - A.length) + 1 := by omega
    have h5 : 5 - A.length ≤ 5 := by omega
    rw [hk, List.take_succ_cons, List.take_succ_cons, List.take_take,
      Nat.min_eq_left h5]
  · have hk : 6 - A.length = 0 := by omega
    rw [hk]
    simp

/-- C2 as amended: after at least one push, the RecentEvents view is the first
six entries of the reverse arrival sequence followed by the snapshot — entries
appear in reverse push-arrival order (most recently arrived first), not sorted
by the event-timestamp ordering key. -/
theorem c2_ordering_amended (snapshot : List Event) (envs : List Event)
    (h : envs ≠ []) :
    List.foldl recentEventsApply snapshot envs =
      (envs.reverse ++ snapshot).take 6 := by
  induction envs generalizing snapshot with
  | nil => exact absurd rfl h
  | cons e es ih =>
      cases es with
      | nil =>
          show recentEventsApply snapshot e = _
          rw [recentEventsApply]
          simp [List.take_succ_cons]
      | cons e2 es2 =>
          rw [List.foldl_cons, ih (recentEventsApply snapshot e) (by simp)]
          rw [recentEventsApply]
          have := takeSixAppendConsTake ((e2 :: es2).reverse) e snapshot
          simpa [List.append_assoc] using this

theorem c2_ordering_witness :
    (([evB] : List Event) ≠ []) ∧
    List.foldl recentEventsApply [evA] [evB] =
      (([evB] : List Event).reverse ++ [evA]).take 6 :=
  ⟨by decide, c2_ordering_amended [evA] [evB] (by decide)⟩

/-- C3 counterexample: in the full six-entry view `prevSix`, the entry with the
least-favorable ordering key is `evOf 1 1` (timestamp 1); inserting a new
envelope keeps the size at six but evicts the positionally last entry
`evOf 6 6` (timestamp 6) while the logically oldest entry survives, refuting
the claim that the evicted entry is the logically oldest one. -/
theorem c3_capacity_cx :
    (recentEventsApply prevSix (evOf 7 7)).length = 6 ∧
    evOf 1 1 ∈ recentEventsApply prevSix (evOf 7 7) ∧
    evOf 6 6 ∉ recentEventsApply prevSix (evOf 7 7) ∧
    (∀ x ∈ prevSix, (evOf 1 1).timestamp ≤ x.timestamp) := by
  refine ⟨by decide, by decide, by decide, by decide⟩

/-- One RecentEvents insertion always yields at most six entries. -/
theorem recentEventsApplyLength (prev : List Event) (e : Event) :
    (recentEventsApply prev e).length ≤ 6 := by
  rw [recentEventsApply]
  simp only [List.length_cons, List.length_take]
  omega

/-- One `handleSessionUpdate` step keeps the view within `pageSize` entries. -/
theorem handleSessionUpdateLength (ps : Nat) (prev : List Session)
    (s : Session) (hps : 1 ≤ ps) (h : prev.length ≤ ps) :
    (handleSessionUpdate ps prev s).length ≤ ps := by
  unfold handleSessionUpdate
  cases prev.findIdx? (fun x => x.id == s.id) with
  | some i => simpa using h
  | none =>
      simp only [List.length_cons, List.length_take]
      omega

/-- C3 as amended: the size bound holds — the RecentEvents view never exceeds
six entries and the Sessions view never exceeds `pageSize` entries (given a
snapshot within the cap) — but eviction is positional: on a full view the
insertion drops exactly the positionally last entry (`dropLast`), regardless
of its ordering key, not the logically oldest entry. -/
theorem c3_capacity_amended :
    (∀ (snapshot envs : List Event), snapshot.length ≤ 6 →
      (List.foldl recentEventsApply snapshot envs).length ≤ 6) ∧
    (∀ (prev : List Event) (e : Event), prev.length = 6 →
      recentEventsApply prev e = e :: prev.dropLast) ∧
    (∀ (ps : Nat) (snapshot envs : List Session), 1 ≤ ps →
      snapshot.length ≤ ps →
      (List.foldl (handleSessionUpdate ps) snapshot envs).length ≤ ps) := by
  refine ⟨?_, ?_, ?_⟩
  · intro snapshot envs h
    induction envs generalizing snapshot with
    | nil => exact h
    | cons e es ih =>
        rw [List.foldl_cons]
        exact ih _ (recentEventsApplyLength snapshot e)
  · intro prev e h
    rw [recentEventsApply, List.dropLast_eq_take, h]
  · intro ps snapshot envs hps h
    induction envs generalizing snapshot with
    | nil => exact h
    | cons e es ih =>
        rw [List.foldl_cons]
        exact ih _ (handleSessionUpdateLength ps snapshot e hps h)

theorem c3_capacity_witness :
    (List.foldl recentEventsApply prevSix [evOf 7 7]).length ≤ 6 ∧
    recentEventsApply prevSix (evOf 7 7) = evOf 7 7 :: prevSix.dropLast ∧
    (List.foldl (handleSessionUpdate 20) [sessA] [sessA]).length ≤ 20 :=
  ⟨c3_capacity_amended.1 prevSix [evOf 7 7] (by decide),
   c3_capacity_amended.2.1 prevSix (evOf 7 7) (by decide),
   c3_capacity_amended.2.2 20 [sessA] [sessA] (by decide) (by decide)⟩

/-- C4 counterexample: delivering the same envelope twice to the RecentEvents
subscriber duplicates it — the second application changes the view beyond the
first one. -/
theorem c4_idempotence_cx :
    recentEventsApply (recentEventsApply [] evA) evA ≠
      recentEventsApply [] evA := by
  decide

/-- C4 as amended: the Sessions handler is idempotent — applying the same
envelope twice in succession yields exactly the view of applying it once,
because the second application finds the id and rewrites the same entry in
place. The RecentEvents handler is not (see the counterexample). -/
theorem c4_idempotence_amended (ps : Nat) (prev : List Session) (s : Session) :
    handleSessionUpdate ps (handleSessionUpdate ps prev s) s =
      handleSessionUpdate ps prev s := by
  have hself : (s.id == s.id) = true := by simp
  cases hf : prev.findIdx? (fun x => x.id == s.id) with
  | some i =>
      have h1 : handleSessionUpdate ps prev s = prev.set i s := by
        unfold handleSessionUpdate
        rw [hf]
      have h2 : (prev.set i s).findIdx? (fun x => x.id == s.id) = some i :=
        @findIdxSetSelf Session (fun x => x.id == s.id) s hself prev i hf
      rw [h1]
      unfold handleSessionUpdate
      rw [h2]
      show (prev.set i s).set i s = prev.set i s
      rw [List.set_set]
  | none =>
      have h1 : handleSessionUpdate ps prev s = s :: prev.take (ps - 1) := by
        unfold handleSessionUpdate
        rw [hf]
      rw [h1]
      unfold handleSessionUpdate
      rw [List.findIdx?_cons, if_pos hself]
      show (s :: List.take (ps - 1) prev).set 0 s = s :: List.take (ps - 1) prev
      rw [List.set_cons_zero]

/-- `readyState` of the underlying browser WebSocket. -/
inductive ReadyState
  | CONNECTING
  | OPEN
  | CLOSING
  | CLOSED
deriving DecidableEq

/-- One registered callback of the service's `Set<WebSocketCallback>`. JS
function identity is modelled by `cid`; the behaviour of a callback when
invoked is restricted to the effects the claims are about: the callback
identities it unsubscribes during its run, and whether it throws. -/
structure CB where
  cid : Nat
  unsubs : List Nat
  throws : Bool
deriving DecidableEq

/-- The JS `Set<WebSocketCallback>`: insertion-ordered, unique identities. -/
abbrev Registry := List CB

/-- The effect of `this.callbacks.delete(callback)` for each identity in
`ids`. -/
def removeIds (ids : List Nat) (cur : Registry) : Registry :=
  cur.filter (fun x => decide (x.cid ∉ ids))

/-- The `WebSocketMessage` envelope of `services/websocket.ts`; the payload is
opaque at this layer. -/
structure WSMessage where
  type : MsgType
  payload : Nat
deriving DecidableEq

/-- The mutable fields of the `WebSocketService` singleton. `ws` is `none`
when `this.ws` is null; `socketsCreated` counts `new WebSocket(WS_URL)`
constructions, so a duplicated underlying socket is observable. -/
structure Service where
  ws : Option ReadyState
  reconnectTimer : Bool
  isIntentionallyClosed : Bool
  socketsCreated : Nat
  callbacks : Registry
deriving DecidableEq

/-- `connect()`: the only guard is `this.ws?.readyState === WebSocket.OPEN`;
otherwise `new WebSocket(WS_URL)` constructs a fresh socket whose initial
readyState is CONNECTING and assigns it to `this.ws`. The asynchronous
`onopen`/`onclose` handlers are not part of this synchronous step. -/
def connect (s : Service) : Service :=
  if s.ws = some ReadyState.OPEN then s
  else { s with ws := some ReadyState.CONNECTING,
                socketsCreated := s.socketsCreated + 1 }

/-- `subscribe(callback)` runs `this.callbacks.add(callback)`: a JS Set add is
a no-op when the same function identity is already present, and otherwise
appends in insertion order. -/
def subscribe (cbs : Registry) (c : CB) : Registry :=
  if cbs.any (fun x => x.cid == c.cid) then cbs else cbs ++ [c]

/-- The handle returned by `subscribe`:
`() => this.callbacks.delete(callback)`. -/
def unsubscribe (cbs : Registry) (c : CB) : Registry :=
  removeIds [c.cid] cbs

/-- `this.callbacks.forEach((callback) => callback(message))` under JS Set
iteration semantics: elements are visited in insertion order, an element
deleted from the set before being visited is skipped, and a throw aborts the
loop (the throw is caught by the enclosing try of `ws.onmessage`). The first
argument is the insertion-order worklist, the second the current set.
Returns the identities invoked in order, the final set, and whether a
callback threw. -/
def forEachDeliver (m : WSMessage) :
    Registry → Registry → List Nat × Registry × Bool
  | [], cur => ([], cur, false)
  | c :: pending, cur =>
      if cur.any (fun x => x.cid == c.cid) then
        let cur2 := removeIds c.unsubs cur
        if c.throws then ([c.cid], cur2, true)
        else
          let r := forEachDeliver m pending cur2
          (c.cid :: r.1, r.2.1, r.2.2)
      else forEachDeliver m pending cur

/-- An inbound transport frame: either a body `JSON.parse` accepts as an
envelope, or a malformed body on which `JSON.parse` throws. -/
inductive Frame
  | wellFormed (m : WSMessage)
  | malformed
deriving DecidableEq

def parseFrame : Frame → Option WSMessage
  | Frame.wellFormed m => some m
  | Frame.malformed => none

/-- The `ws.onmessage` handler: parse the frame, then fan out to every
registered callback, the whole body inside one try/catch whose catch only
logs. Returns the service state afterwards, the identities of the callbacks
invoked, and whether an error was caught and logged. -/
def onmessage (s : Service) (f : Frame) : Service × List Nat × Bool :=
  match parseFrame f with
  | none => (s, [], true)
  | some m =>
      let r := forEachDeliver m s.callbacks s.callbacks
      ({ s with callbacks := r.2.1 }, r.1, r.2.2)

/-- Concrete callbacks and service states for counterexamples and witnesses. -/
def cbThrow : CB := ⟨1, [], true⟩

def cbOk : CB := ⟨2, [], false⟩

def cbSelf : CB := ⟨3, [3], false⟩

def cbOk4 : CB := ⟨4, [], false⟩

def svc0 : Service := ⟨some ReadyState.OPEN, false, false, 1, [cbThrow, cbOk]⟩

def svcOpen : Service := ⟨some ReadyState.OPEN, false, false, 1, []⟩

def svcConnecting : Service :=
  ⟨some ReadyState.CONNECTING, false, false, 1, []⟩

def msg0 : WSMessage := ⟨MsgType.event, 0⟩

/-- Deleting nothing leaves the set unchanged. -/
theorem removeIdsNil (cur : Registry) : removeIds [] cur = cur := by
  unfold removeIds
  apply List.filter_eq_self.mpr
  intro x _
  simp

/-- A prefix of callbacks that neither throw nor unsubscribe is invoked in
order, leaves the set untouched, and passes control to the rest of the
worklist. -/
theorem forEachDeliverBenign (m : WSMessage) :
    ∀ (pre pending cur : Registry),
      (∀ x ∈ pre, x.throws = false) →
      (∀ x ∈ pre, x.unsubs = []) →
      (∀ x ∈ pre, x.cid ∈ cur.map CB.cid) →
      forEachDeliver m (pre ++ pending) cur =
        (pre.map CB.cid ++ (forEachDeliver m pending cur).1,
         (forEachDeliver m pending cur).2.1,
         (forEachDeliver m pending cur).2.2)
  | [], pending, cur, _, _, _ => by simp
  | a :: pre, pending, cur, h1, h2, h3 => by
      have hmem : a.cid ∈ cur.map CB.cid := h3 a (by simp)
      have hany : cur.any (fun x => x.cid == a.cid) = true := by
        rw [List.any_eq_true]
        obtain ⟨x, hx, hxe⟩ := List.mem_map.mp hmem
        exact ⟨x, hx, by simp [hxe]⟩
      have hth : a.throws = false := h1 a (by simp)
      have hun : a.unsubs = [] := h2 a (by simp)
      have ih := forEachDeliverBenign m pre pending cur
        (fun x hx => h1 x (by simp [hx])) (fun x hx => h2 x (by simp [hx]))
        (fun x hx => h3 x (by simp [hx]))
      rw [List.cons_append]
      show forEachDeliver m (a :: (pre ++ pending)) cur = _
      rw [forEachDeliver, if_pos hany, hun, removeIdsNil, hth]
      simp only [Bool.false_eq_true, if_false, ih, List.map_cons,
        List.cons_append]

/-- C5 counterexample: with two registered subscribers, the first of which
throws, dispatching a well-formed envelope invokes only the thrower — the
second registered subscriber never receives the envelope, because the single
try/catch wraps the whole `forEach` and the throw aborts the loop. -/
theorem c5_isolation_cx :
    cbOk ∈ svc0.callbacks ∧
    cbOk.cid ∉ (onmessage svc0 (Frame.wellFormed msg0)).2.1 := by
  constructor
  · decide
  · decide

/-- C5 as amended: a throwing subscriber does not crash the pipeline — the
error is caught and logged at the message-handler level, the connection state
and subscriber set are unchanged — and the subscribers registered before the
thrower in Set insertion order each receive the envelope once; but the
subscribers after the thrower receive nothing for that envelope, because the
catch wraps the whole fan-out loop rather than each delivery. -/
theorem c5_isolation_amended (s : Service) (m : WSMessage)
    (pre : Registry) (t : CB) (post : Registry)
    (hcb : s.callbacks = pre ++ t :: post)
    (h1 : ∀ x ∈ pre, x.throws = false)
    (h2 : ∀ x ∈ pre, x.unsubs = [])
    (ht : t.throws = true) (htu : t.unsubs = []) :
    onmessage s (Frame.wellFormed m) =
      (s, pre.map CB.cid ++ [t.cid], true) := by
  have h3 : ∀ x ∈ pre, x.cid ∈ (pre ++ t :: post).map CB.cid := by
    intro x hx
    exact List.mem_map.mpr ⟨x, by simp [hx], rfl⟩
  have htm : (pre ++ t :: post).any (fun x => x.cid == t.cid) = true := by
    rw [List.any_eq_true]
    exact ⟨t, by simp, by simp⟩
  have hrun : forEachDeliver m (pre ++ t :: post) (pre ++ t :: post) =
      (pre.map CB.cid ++ [t.cid], pre ++ t :: post, true) := by
    rw [forEachDeliverBenign m pre (t :: post) (pre ++ t :: post) h1 h2 h3]
    rw [forEachDeliver, if_pos htm, htu, removeIdsNil, ht]
    simp
  show (match parseFrame (Frame.wellFormed m) with
    | none => (s, ([] : List Nat), true)
    | some m =>
        let r := forEachDeliver m s.callbacks s.callbacks
        ({ s with callbacks := r.2.1 }, r.1, r.2.2)) = _
  rw [show parseFrame (Frame.wellFormed m) = some m from rfl]
  simp only [hcb, hrun]
  rw [← hcb]

theorem c5_isolation_witness :
    svc0.callbacks = [] ++ cbThrow :: [cbOk] ∧
    onmessage svc0 (Frame.wellFormed msg0) =
      (svc0, List.map CB.cid [] ++ [cbThrow.cid], true) :=
  ⟨by decide,
   c5_isolation_amended svc0 msg0 [] cbThrow [cbOk] (by decide) (by decide)
     (by decide) (by decide) (by decide)⟩

/-- C6 counterexample: calling `connect()` while the underlying socket is in
the Connecting state is not a no-op — the guard only checks for the OPEN
readyState, so a second `new WebSocket` is constructed and `this.ws`
replaced. -/
theorem c6_connect_cx :
    connect svcConnecting ≠ svcConnecting ∧
    (connect svcConnecting).socketsCreated =
      svcConnecting.socketsCreated + 1 := by
  constructor
  · decide
  · decide

/-- C6 as amended: `connect()` is a no-op exactly when the socket is already
OPEN (Connected); in every other state — including Connecting — it constructs
a fresh underlying socket, so a concurrent caller during connection
establishment does create a second socket. -/
theorem c6_connect_amended (s : Service) :
    (s.ws = some ReadyState.OPEN → connect s = s) ∧
    (s.ws ≠ some ReadyState.OPEN →
      (connect s).ws = some ReadyState.CONNECTING ∧
      (connect s).socketsCreated = s.socketsCreated + 1) := by
  constructor
  · intro h
    rw [connect, if_pos h]
  · intro h
    rw [connect, if_neg h]
    exact ⟨rfl, rfl⟩

theorem c6_connect_witness :
    (svcOpen.ws = some ReadyState.OPEN ∧ connect svcOpen = svcOpen) ∧
    (svcConnecting.ws ≠ some ReadyState.OPEN ∧
      (connect svcConnecting).ws = some ReadyState.CONNECTING ∧
      (connect svcConnecting).socketsCreated =
        svcConnecting.socketsCreated + 1) :=
  ⟨⟨by decide, (c6_connect_amended svcOpen).1 (by decide)⟩,
   ⟨by decide, (c6_connect_amended svcConnecting).2 (by decide)⟩⟩

/-- C7 counterexample: an envelope (`evA`) delivered while a REST refetch is
in flight is applied to the view, but when the refetch completes its handler
overwrites the view with the REST snapshot, and the envelope's entity is
gone — it was dropped solely because a refetch was pending. -/
theorem c7_buffering_cx :
    evA.id ∈ eventIds (stepRecentEvents [] (FeedStep.push evA)) ∧
    evA.id ∉ eventIds (List.foldl stepRecentEvents []
      [FeedStep.push evA, FeedStep.fetchComplete [evB]]) := by
  constructor
  · decide
  · decide

/-- C7 as amended: a push envelope is applied to the view immediately (the
new entry becomes the head), but there is no buffering across refetches — a
completing refetch overwrites the view with exactly the REST snapshot, no
matter which envelopes were applied while the fetch was in flight. -/
theorem c7_buffering_amended (evs : List Event) (e : Event)
    (s0 : List Event) (steps : List FeedStep) (snapshot : List Event) :
    (stepRecentEvents evs (FeedStep.push e)).head? = some e ∧
    List.foldl stepRecentEvents s0
      (steps ++ [FeedStep.fetchComplete snapshot]) = snapshot := by
  constructor
  · rfl
  · rw [List.foldl_append]
    rfl

/-- C8: a frame whose body does not parse as an envelope is dropped and
logged — no subscriber callback is invoked, no exception escapes the handler,
and the service state (connection and subscriber set) is unchanged. -/
theorem c8_malformed_thm (s : Service) (f : Frame)
    (h : parseFrame f = none) : onmessage s f = (s, [], true) := by
  show (match parseFrame f with
    | none => (s, ([] : List Nat), true)
    | some m =>
        let r := forEachDeliver m s.callbacks s.callbacks
        ({ s with callbacks := r.2.1 }, r.1, r.2.2)) = _
  rw [h]

theorem c8_malformed_witness :
    parseFrame Frame.malformed = none ∧
    onmessage svc0 Frame.malformed = (svc0, [], true) :=
  ⟨rfl, c8_malformed_thm svc0 Frame.malformed rfl⟩

/-- With unique identities, deleting one callback from the set removes exactly
that callback and preserves the order of the rest. -/
theorem removeIdsSingle (pre post : Registry) (c : CB)
    (hnd : ((pre ++ c :: post).map CB.cid).Nodup) :
    removeIds [c.cid] (pre ++ c :: post) = pre ++ post := by
  have hmap : (pre.map CB.cid ++ c.cid :: post.map CB.cid).Nodup := by
    simpa using hnd
  rw [List.nodup_append] at hmap
  obtain ⟨hpre, hcpost, hdisj⟩ := hmap
  have hcpre : ∀ x ∈ pre, x.cid ≠ c.cid := by
    intro x hx heq
    exact hdisj (List.mem_map.mpr ⟨x, hx, rfl⟩) (by simp [heq])
  have hcnotpost : c.cid ∉ post.map CB.cid := (List.nodup_cons.mp hcpost).1
  have hcpostne : ∀ x ∈ post, x.cid ≠ c.cid := by
    intro x hx heq
    exact hcnotpost (heq ▸ List.mem_map.mpr ⟨x, hx, rfl⟩)
  unfold removeIds
  rw [List.filter_append, List.filter_cons]
  have hc : (decide (c.cid ∉ [c.cid])) = false := by simp
  rw [hc]
  simp only [Bool.false_eq_true, if_false]
  congr 1
  · apply List.filter_eq_self.mpr
    intro x hx
    simpa using hcpre x hx
  · apply List.filter_eq_self.mpr
    intro x hx
    simpa using hcpostne x hx

/-- C9: (1) the unsubscribe handle is idempotent — a second call leaves the
subscriber set unchanged; (2) a subscriber that unregisters (only) itself from
within its own delivery callback does not corrupt iteration: every registered
subscriber, itself included, is still invoked exactly once in insertion order
in that same dispatch pass, no error escapes, and the final set is the
original minus the self-removed subscriber. -/
theorem c9_unsub_thm :
    (∀ (cbs : Registry) (c : CB),
      unsubscribe (unsubscribe cbs c) c = unsubscribe cbs c) ∧
    (∀ (m : WSMessage) (pre : Registry) (c : CB) (post : Registry),
      ((pre ++ c :: post).map CB.cid).Nodup →
      (∀ x ∈ pre ++ c :: post, x.throws = false) →
      c.unsubs = [c.cid] →
      (∀ x ∈ pre, x.unsubs = []) →
      (∀ x ∈ post, x.unsubs = []) →
      forEachDeliver m (pre ++ c :: post) (pre ++ c :: post) =
        ((pre ++ c :: post).map CB.cid, pre ++ post, false)) := by
  constructor
  · intro cbs c
    show List.filter _ (List.filter _ cbs) = List.filter _ cbs
    apply List.filter_eq_self.mpr
    intro x hx
    exact (List.mem_filter.mp hx).2
  · intro m pre c post hnd hth hcu hpu hqu
    have h3 : ∀ x ∈ pre, x.cid ∈ (pre ++ c :: post).map CB.cid :=
      fun x hx => List.mem_map.mpr ⟨x, by simp [hx], rfl⟩
    have h1 : ∀ x ∈ pre, x.throws = false := fun x hx => hth x (by simp [hx])
    rw [forEachDeliverBenign m pre (c :: post) (pre ++ c :: post) h1 hpu h3]
    have hcm : (pre ++ c :: post).any (fun x => x.cid == c.cid) = true := by
      rw [List.any_eq_true]
      exact ⟨c, by simp, by simp⟩
    have hcth : c.throws = false := hth c (by simp)
    rw [forEachDeliver, if_pos hcm, hcu, removeIdsSingle pre post c hnd, hcth]
    have hrest : forEachDeliver m post (pre ++ post) =
        (post.map CB.cid, pre ++ post, false) := by
      have h3p : ∀ x ∈ post, x.cid ∈ (pre ++ post).map CB.cid :=
        fun x hx => List.mem_map.mpr ⟨x, by simp [hx], rfl⟩
      have h1p : ∀ x ∈ post, x.throws = false :=
        fun x hx => hth x (by simp [hx])
      have := forEachDeliverBenign m post [] (pre ++ post) h1p hqu h3p
      simpa [forEachDeliver] using this
    simp [hrest]

theorem c9_unsub_witness :
    unsubscribe (unsubscribe [cbOk] cbOk) cbOk = unsubscribe [cbOk] cbOk ∧
    forEachDeliver msg0 ([cbOk] ++ cbSelf :: [cbOk4])
        ([cbOk] ++ cbSelf :: [cbOk4]) =
      (([cbOk] ++ cbSelf :: [cbOk4]).map CB.cid, [cbOk] ++ [cbOk4], false) :=
  ⟨c9_unsub_thm.1 [cbOk] cbOk,
   c9_unsub_thm.2 msg0 [cbOk] cbSelf [cbOk4] (by decide) (by decide)
     (by decide) (by decide) (by decide)⟩

/-- The identities invoked in one dispatch pass form a sublist of the
worklist's identities. -/
theorem forEachDeliverSublist (m : WSMessage) :
    ∀ (pending cur : Registry),
      List.Sublist (forEachDeliver m pending cur).1 (pending.map CB.cid)
  | [], cur => by simp [forEachDeliver]
  | c :: pending, cur => by
      rw [forEachDeliver]
      by_cases h : cur.any (fun x => x.cid == c.cid) = true
      · rw [if_pos h]
        by_cases ht : c.throws = true
        · rw [if_pos ht]
          exact (List.nil_sublist _).cons₂ _
        · rw [if_neg ht]
          exact (forEachDeliverSublist m pending (removeIds c.unsubs cur)).cons₂ _
      · rw [if_neg h]
        exact (forEachDeliverSublist m pending cur).cons _

/-- C10: the registry is a set keyed by callback identity — (1) subscribing
the same callback twice leaves the set as after one subscription; (2) a
subscription preserves uniqueness of identities; (3) in any dispatch pass over
a duplicate-free worklist no callback is invoked twice; (4) one call of the
unsubscribe handle removes the callback entirely. -/
theorem c10_set_thm :
    (∀ (cbs : Registry) (c : CB),
      subscribe (subscribe cbs c) c = subscribe cbs c) ∧
    (∀ (cbs : Registry) (c : CB), (cbs.map CB.cid).Nodup →
      ((subscribe cbs c).map CB.cid).Nodup) ∧
    (∀ (m : WSMessage) (pending cur : Registry),
      (pending.map CB.cid).Nodup →
      ((forEachDeliver m pending cur).1).Nodup) ∧
    (∀ (cbs : Registry) (c : CB),
      c.cid ∉ (unsubscribe cbs c).map CB.cid) := by
  refine ⟨?_, ?_, ?_, ?_⟩
  · intro cbs c
    by_cases h : cbs.any (fun x => x.cid == c.cid) = true
    · have h1 : subscribe cbs c = cbs := by
        rw [subscribe, if_pos h]
      rw [h1]
      exact h1
    · have h1 : subscribe cbs c = cbs ++ [c] := by
        rw [subscribe, if_neg h]
      have h2 : (cbs ++ [c]).any (fun x => x.cid == c.cid) = true := by
        rw [List.any_eq_true]
        exact ⟨c, by simp, by simp⟩
      rw [h1, subscribe, if_pos h2]
  · intro cbs c hnd
    by_cases h : cbs.any (fun x => x.cid == c.cid) = true
    · rw [subscribe, if_pos h]
      exact hnd
    · rw [subscribe, if_neg h]
      have hne : ∀ a ∈ cbs.map CB.cid, a ≠ c.cid := by
        intro a ha heq
        obtain ⟨x, hx, rfl⟩ := List.mem_map.mp ha
        have : cbs.any (fun x => x.cid == c.cid) = true := by
          rw [List.any_eq_true]
          exact ⟨x, hx, by simp [heq]⟩
        exact h this
      rw [List.map_append, List.nodup_append]
      exact ⟨hnd, by simp, by
        intro a ha
        simpa using hne a ha⟩
  · intro m pending cur hnd
    exact List.Nodup.sublist (forEachDeliverSublist m pending cur) hnd
  · intro cbs c hmem
    obtain ⟨x, hx, hxe⟩ := List.mem_map.mp hmem
    have := (List.mem_filter.mp hx).2
    rw [decide_eq_true_eq] at this
    exact this (by simp [hxe])

theorem c10_set_witness :
    subscribe (subscribe [] cbOk) cbOk = subscribe [] cbOk ∧
    ((subscribe [cbOk] cbThrow).map CB.cid).Nodup ∧
    ((forEachDeliver msg0 [cbThrow, cbOk] [cbThrow, cbOk]).1).Nodup ∧
    cbOk.cid ∉ (unsubscribe [cbOk] cbOk).map CB.cid :=
  ⟨c10_set_thm.1 [] cbOk,
   c10_set_thm.2.1 [cbOk] cbThrow (by decide),
   c10_set_thm.2.2.1 msg0 [cbThrow, cbOk] [cbThrow, cbOk] (by decide),
   c10_set_thm.2.2.2 [cbOk] cbOk⟩
